import Mathlib

/-!
Verification development for the klausen named-parameter Monte Carlo
sampling engine.  The repository ships only a demonstration notebook
(docs/A simple klausen model.ipynb); the engine itself is modelled here,
definition by definition, from the design document (spec.md).  Rational
numbers stand in for floating-point values.
-/

namespace Klausen

/-- Modelled from the spec: the raw declaration record of section 6, a
mapping entry with recognized fields uncertainty_type, loc, scale,
minimum, maximum, sample.  The uncertainty_type codes follow the
stats_arrays ids used in the notebook (2 lognormal, 3 normal,
4 uniform, 5 triangular), with 1 for a constant and 6 for a
discrete-empirical sample. -/
structure RawSpec where
  uncertaintyType : Nat
  loc : Option ℚ
  scale : Option ℚ
  minimum : Option ℚ
  maximum : Option ℚ
  sample : Option (List ℚ)
deriving DecidableEq

/-- Modelled from the spec: a validated ParameterSpec (section 3).  Each
constructor carries exactly the fields meaningful for its kind, so the
invariant that exactly one representation mode (parametric or empirical)
is populated holds structurally. -/
inductive PSpec where
  | normal (loc scale : ℚ) (lo hi : Option ℚ)
  | lognormal (loc scale : ℚ) (lo hi : Option ℚ)
  | triangular (lo loc hi : ℚ)
  | uniform (lo hi : ℚ)
  | constant (loc : ℚ)
  | empirical (pop : List ℚ)
deriving DecidableEq

/-- Modelled from the spec: the SpecificationError taxonomy of section 7
(unknown distribution kind, missing required field, minimum above
maximum, loc outside the bounds, duplicate parameter name, empty
empirical sample; empty names are rejected per section 4.2). -/
inductive SpecError where
  | unknownKind
  | missingField
  | badBounds
  | locOutOfBounds
  | duplicateName
  | emptyName
  | emptySample
deriving DecidableEq

/-- Modelled from the spec: the DrawError of section 7, raised when
rejection sampling cannot converge within a bounded number of attempts. -/
inductive DrawError where
  | nonconvergence
deriving DecidableEq

/-- Modelled from the spec: the access-time errors of section 7. -/
inductive AccessError where
  | notReady
  | unknownParameter
deriving DecidableEq

/-- Bool check that an optional bound pair is consistent (minimum at most
maximum whenever both are present). -/
def boundsPairOk (lo hi : Option ℚ) : Bool :=
  match lo, hi with
  | some a, some b => decide (a ≤ b)
  | _, _ => true

/-- Bool check that a location value lies within the optional bounds. -/
def locInB (lo hi : Option ℚ) (l : ℚ) : Bool :=
  (match lo with
   | some a => decide (a ≤ l)
   | none => true) &&
  (match hi with
   | some b => decide (l ≤ b)
   | none => true)

/-- Modelled from the spec: the Distribution Adapter static checks of
sections 4.1 and 7.  Validates one raw record and produces the typed
spec, or the SpecificationError describing the first violation. -/
def checkSpec (r : RawSpec) : Except SpecError PSpec :=
  if boundsPairOk r.minimum r.maximum = false then .error .badBounds
  else if r.uncertaintyType = 1 then
    match r.loc with
    | some l => .ok (.constant l)
    | none => .error .missingField
  else if r.uncertaintyType = 2 then
    match r.loc, r.scale with
    | some l, some s =>
        if locInB r.minimum r.maximum l then .ok (.lognormal l s r.minimum r.maximum)
        else .error .locOutOfBounds
    | _, _ => .error .missingField
  else if r.uncertaintyType = 3 then
    match r.loc, r.scale with
    | some l, some s =>
        if locInB r.minimum r.maximum l then .ok (.normal l s r.minimum r.maximum)
        else .error .locOutOfBounds
    | _, _ => .error .missingField
  else if r.uncertaintyType = 4 then
    match r.minimum, r.maximum with
    | some a, some b => .ok (.uniform a b)
    | _, _ => .error .missingField
  else if r.uncertaintyType = 5 then
    match r.minimum, r.loc, r.maximum with
    | some a, some l, some b =>
        if locInB (some a) (some b) l then .ok (.triangular a l b)
        else .error .locOutOfBounds
    | _, _, _ => .error .missingField
  else if r.uncertaintyType = 6 then
    match r.sample with
    | some (x :: xs) => .ok (.empirical (x :: xs))
    | some [] => .error .emptySample
    | none => .error .missingField
  else .error .unknownKind

/-- Modelled from the spec: the Sample Store of section 3, holding per
parameter either a single scalar (static mode) or a length-N vector
(stochastic mode); uninit is the Uninitialized mode of section 4.3. -/
inductive Store where
  | uninit
  | statics (vals : List (String × ℚ))
  | stoch (n : Nat) (vals : List (String × List ℚ))
deriving DecidableEq

/-- Modelled from the spec: the Engine of section 3, owning one
insertion-ordered Registry and one Sample Store. -/
structure Engine where
  registry : List (String × PSpec)
  store : Store
deriving DecidableEq

/-- Modelled from the spec: Registry construction (section 4.2), bulk and
all-or-nothing over the declaration list. -/
def buildRegistry : List (String × RawSpec) → Except SpecError (List (String × PSpec))
  | [] => .ok []
  | (nm, r) :: rest =>
      match checkSpec r with
      | .error e => .error e
      | .ok s =>
          match buildRegistry rest with
          | .error e => .error e
          | .ok tail => .ok ((nm, s) :: tail)

/-- Modelled from the spec: declare (section 4.2).  Rejects empty or
duplicate names and any invalid spec; on success the Engine starts in the
Uninitialized mode. -/
def declare (d : List (String × RawSpec)) : Except SpecError Engine :=
  if (d.map Prod.fst).all (fun s => !s.isEmpty) = false then .error .emptyName
  else if (d.map Prod.fst).Nodup then
    match buildRegistry d with
    | .ok reg => .ok ⟨reg, .uninit⟩
    | .error e => .error e
  else .error .duplicateName

/-- Modelled from the spec: the injected random source of section 4.1,
kept as an explicit state so draws are a pure function of the seed. -/
structure RNG where
  state : Nat
deriving DecidableEq

/-- Modulus of the linear congruential generator backing the RNG. -/
def lcgMod : Nat := 2147483648

/-- One linear congruential step of the RNG state. -/
def lcgStep (s : Nat) : Nat := (1103515245 * s + 12345) % lcgMod

/-- Advance the RNG and produce one pseudo-uniform rational in [0, 1). -/
def lcgNext (r : RNG) : ℚ × RNG :=
  let s := lcgStep r.state
  ((s : ℚ) / (lcgMod : ℚ), ⟨s⟩)

/-- Modelled from the spec: a computable surrogate for the real-valued
standard-normal inverse CDF; the spec fixes draws only distributionally,
and no theorem below depends on the shape of this map. -/
def probitQ (u : ℚ) : ℚ := (u - 1/2) * 6

/-- Modelled from the spec: a computable nonnegative surrogate for the
exponential map used by the lognormal family. -/
def expQ (z : ℚ) : ℚ := (1 + z / 8) ^ 2

/-- Modelled from the spec: one untruncated draw of the family from one
uniform variate (section 4.1); triangular uses a piecewise inverse-CDF
surrogate onto [lo, hi] with the mode at loc. -/
def rawValue : PSpec → ℚ → ℚ
  | .normal l s _ _, u => l + s * probitQ u
  | .lognormal l s _ _, u => expQ (l + s * probitQ u)
  | .triangular a c b, u =>
      let fc := (c - a) / (b - a)
      if u ≤ fc then a + (u / fc) * (c - a)
      else c + ((u - fc) / (1 - fc)) * (b - c)
  | .uniform a b, u => a + u * (b - a)
  | .constant l, _ => l
  | .empirical pop, u => pop.getD ((u * pop.length).floor.toNat) 0

/-- The truncation interval of a spec: declared bounds for normal and
lognormal, the mandatory support for triangular and uniform, unbounded
for constant and empirical kinds. -/
def specBounds : PSpec → Option ℚ × Option ℚ
  | .normal _ _ a b => (a, b)
  | .lognormal _ _ a b => (a, b)
  | .triangular a _ b => (some a, some b)
  | .uniform a b => (some a, some b)
  | .constant _ => (none, none)
  | .empirical _ => (none, none)

/-- Whether a candidate draw respects the truncation interval. -/
def inBounds (s : PSpec) (x : ℚ) : Bool :=
  (match (specBounds s).1 with
   | some a => decide (a ≤ x)
   | none => true) &&
  (match (specBounds s).2 with
   | some b => decide (x ≤ b)
   | none => true)

/-- Attempt budget for rejection sampling before a DrawError. -/
def maxAttempts : Nat := 1000

/-- Modelled from the spec: rejection sampling for truncated support
(section 4.1), failing with a DrawError after a bounded number of
attempts (section 7). -/
def rejectLoop : Nat → PSpec → RNG → Except DrawError (ℚ × RNG)
  | 0, _, _ => .error .nonconvergence
  | fuel + 1, s, r =>
      let (u, r1) := lcgNext r
      let x := rawValue s u
      if inBounds s x then .ok (x, r1) else rejectLoop fuel s r1

/-- One accepted draw from a spec, threading the RNG. -/
def drawOne (s : PSpec) (r : RNG) : Except DrawError (ℚ × RNG) :=
  rejectLoop maxAttempts s r

/-- Modelled from the spec: the Distribution Adapter draw contract of
section 4.1, producing n values and the advanced RNG. -/
def draw : PSpec → Nat → RNG → Except DrawError (List ℚ × RNG)
  | _, 0, r => .ok ([], r)
  | s, n + 1, r =>
      match drawOne s r with
      | .error e => .error e
      | .ok (x, r1) =>
          match draw s n r1 with
          | .error e => .error e
          | .ok (xs, r2) => .ok (x :: xs, r2)

/-- Modelled from the spec: draw every parameter in Registry order from
one shared random-source instance (section 4.3). -/
def drawAll : List (String × PSpec) → Nat → RNG → Except DrawError (List (String × List ℚ) × RNG)
  | [], _, r => .ok ([], r)
  | (nm, s) :: rest, n, r =>
      match draw s n r with
      | .error e => .error e
      | .ok (xs, r1) =>
          match drawAll rest n r1 with
          | .error e => .error e
          | .ok (tail, r2) => .ok ((nm, xs) :: tail, r2)

/-- Modelled from the spec: stochastic(n, seed) of section 4.3.  On
success the whole Sample Store is replaced by the fresh joint draw. -/
def stochastic (e : Engine) (n : Nat) (r : RNG) : Except DrawError Engine :=
  match drawAll e.registry n r with
  | .error e1 => .error e1
  | .ok (vals, _) => .ok ⟨e.registry, .stoch n vals⟩

/-- Clip a value into an optional bound interval. -/
def clip (lo hi : Option ℚ) (x : ℚ) : ℚ :=
  let y := match lo with
    | some a => max a x
    | none => x
  match hi with
  | some b => min b y
  | none => y

/-- Modelled from the spec: the representative value of section 4.1, the
location or mode for the parametric families, the midpoint for uniform,
the sample mean for discrete-empirical, clipped to the nearest bound when
it falls outside the declared interval. -/
def representative (s : PSpec) : ℚ :=
  let raw := match s with
    | .normal l _ _ _ => l
    | .lognormal l _ _ _ => l
    | .triangular _ c _ => c
    | .uniform a b => (a + b) / 2
    | .constant l => l
    | .empirical pop => pop.sum / pop.length
  clip (specBounds s).1 (specBounds s).2 raw

/-- Modelled from the spec: static() of section 4.3, replacing the whole
store by the deterministic representatives. -/
def static (e : Engine) : Engine :=
  ⟨e.registry, .statics (e.registry.map (fun p => (p.1, representative p.2)))⟩

/-- Association-list lookup by name. -/
def alookup {β : Type} : List (String × β) → String → Option β
  | [], _ => none
  | (k, v) :: rest, nm => if k = nm then some v else alookup rest nm

/-- Modelled from the spec: the dual-shape value returned by the Named
Access Facade (section 9), a tagged scalar-or-vector union. -/
inductive Value where
  | scalar (x : ℚ)
  | vector (xs : List ℚ)
deriving DecidableEq

/-- Modelled from the spec: get (section 4.4).  Fails with NotReadyError
in the Uninitialized mode and with UnknownParameterError for a name
absent from the store; it is a pure read. -/
def get (e : Engine) (name : String) : Except AccessError Value :=
  match e.store with
  | .uninit => .error .notReady
  | .statics vals =>
      match alookup vals name with
      | some v => .ok (.scalar v)
      | none => .error .unknownParameter
  | .stoch _ vals =>
      match alookup vals name with
      | some xs => .ok (.vector xs)
      | none => .error .unknownParameter

/-- Shape-polymorphic multiplication of facade values, matching the numpy
broadcasting the downstream model relies on (section 6). -/
def vmul : Value → Value → Value
  | .scalar a, .scalar b => .scalar (a * b)
  | .scalar a, .vector ys => .vector (ys.map (fun y => a * y))
  | .vector xs, .scalar b => .vector (xs.map (fun x => x * b))
  | .vector xs, .vector ys => .vector (List.zipWith (fun x y => x * y) xs ys)

/-- Shape-polymorphic scaling of a facade value by a constant. -/
def smul (c : ℚ) : Value → Value
  | .scalar a => .scalar (c * a)
  | .vector xs => .vector (xs.map (fun x => c * x))

/-- The downstream scooter model of the notebook: actual fuel consumption
is the product of the two parameters, and carbon dioxide is three times
the actual fuel consumption. -/
def scooterModel (e : Engine) : Except AccessError (Value × Value) :=
  match get e "fuel_consumption" with
  | .error e1 => .error e1
  | .ok fc =>
      match get e "driver" with
      | .error e1 => .error e1
      | .ok d => .ok (vmul fc d, smul 3 (vmul fc d))

/-- The raw fuel_consumption record of the notebook: a normal with
loc 0.01, scale 0.003 and minimum 0.005. -/
def fuelRaw : RawSpec := ⟨3, some (1/100), some (3/1000), some (1/200), none, none⟩

/-- The raw driver record of the notebook: a triangular from 0.8 through
the mode 1 to 1.2. -/
def driverRaw : RawSpec := ⟨5, some 1, none, some (4/5), some (6/5), none⟩

/-- The declaration mapping of the notebook. -/
def notebookDecl : List (String × RawSpec) :=
  [("fuel_consumption", fuelRaw), ("driver", driverRaw)]

/-- The validated fuel_consumption spec. -/
def fuelPSpec : PSpec := .normal (1/100) (3/1000) (some (1/200)) none

/-- The validated driver spec. -/
def driverPSpec : PSpec := .triangular (4/5) 1 (6/5)

/-- The notebook engine as produced by declare, still uninitialized. -/
def nbEngine : Engine :=
  ⟨[("fuel_consumption", fuelPSpec), ("driver", driverPSpec)], .uninit⟩

/-- Lookup succeeds exactly on the names of the association list. -/
theorem alookup_isSome_iff {β : Type} (l : List (String × β)) (nm : String) :
    (alookup l nm).isSome = true ↔ nm ∈ l.map Prod.fst := by
  induction l with
  | nil => simp [alookup]
  | cons p rest ih =>
      obtain ⟨k, v⟩ := p
      by_cases hk : k = nm
      · subst hk
        simp [alookup]
      · simp [alookup, hk, ih, Ne.symm hk]

/-- A successful lookup returns an element of the list. -/
theorem alookup_mem {β : Type} (l : List (String × β)) (nm : String) (v : β)
    (h : alookup l nm = some v) : (nm, v) ∈ l := by
  induction l with
  | nil => simp [alookup] at h
  | cons p rest ih =>
      obtain ⟨k, w⟩ := p
      by_cases hk : k = nm
      · subst hk
        simp [alookup] at h
        simp [h]
      · simp [alookup, hk] at h
        exact List.mem_cons_of_mem _ (ih h)

/-- Lookup commutes with mapping a function over the values. -/
theorem alookup_map {β γ : Type} (f : β → γ) (l : List (String × β)) (nm : String) :
    alookup (l.map (fun p => (p.1, f p.2))) nm = (alookup l nm).map f := by
  induction l with
  | nil => simp [alookup]
  | cons p rest ih =>
      obtain ⟨k, v⟩ := p
      by_cases hk : k = nm
      · subst hk
        simp [alookup]
      · simp [alookup, hk, ih]

/-- A name among the keys can be looked up. -/
theorem alookup_of_mem_keys {β : Type} (l : List (String × β)) (nm : String)
    (h : nm ∈ l.map Prod.fst) : ∃ v, alookup l nm = some v := by
  have := (alookup_isSome_iff l nm).2 h
  cases hv : alookup l nm with
  | none => rw [hv] at this; simp at this
  | some v => exact ⟨v, rfl⟩

/-- A name outside the keys cannot be looked up. -/
theorem alookup_eq_none_of_not_mem {β : Type} (l : List (String × β)) (nm : String)
    (h : nm ∉ l.map Prod.fst) : alookup l nm = none := by
  cases hv : alookup l nm with
  | none => rfl
  | some v =>
      exact absurd ((alookup_isSome_iff l nm).1 (by simp [hv])) h

/-- Any value accepted by the rejection loop respects the bounds. -/
theorem rejectLoop_inBounds (fuel : Nat) (s : PSpec) (r r1 : RNG) (x : ℚ)
    (h : rejectLoop fuel s r = .ok (x, r1)) : inBounds s x = true := by
  induction fuel generalizing r with
  | zero => simp [rejectLoop] at h
  | succ fuel ih =>
      rw [rejectLoop] at h
      by_cases hb : inBounds s (rawValue s (lcgNext r).1) = true
      · simp [hb] at h
        rw [← h.1]
        exact hb
      · simp [hb] at h
        exact ih (lcgNext r).2 h

/-- Any accepted single draw respects the bounds. -/
theorem drawOne_inBounds (s : PSpec) (r r1 : RNG) (x : ℚ)
    (h : drawOne s r = .ok (x, r1)) : inBounds s x = true :=
  rejectLoop_inBounds maxAttempts s r r1 x h

/-- A successful draw returns exactly the requested number of values. -/
theorem draw_length (s : PSpec) (n : Nat) (r r1 : RNG) (xs : List ℚ)
    (h : draw s n r = .ok (xs, r1)) : xs.length = n := by
  induction n generalizing r r1 xs with
  | zero => rw [draw] at h; cases h; rfl
  | succ n ih =>
      rw [draw] at h
      cases h1 : drawOne s r with
      | error e => rw [h1] at h; cases h
      | ok p =>
          obtain ⟨x, ra⟩ := p
          rw [h1] at h
          dsimp only at h
          cases h2 : draw s n ra with
          | error e => rw [h2] at h; cases h
          | ok q =>
              obtain ⟨ys, rb⟩ := q
              rw [h2] at h
              dsimp only at h
              cases h
              simp [ih _ _ _ h2]

/-- Every value of a successful draw respects the bounds. -/
theorem draw_mem_inBounds (s : PSpec) (n : Nat) (r r1 : RNG) (xs : List ℚ)
    (h : draw s n r = .ok (xs, r1)) : ∀ x ∈ xs, inBounds s x = true := by
  induction n generalizing r r1 xs with
  | zero => rw [draw] at h; cases h; simp
  | succ n ih =>
      rw [draw] at h
      cases h1 : drawOne s r with
      | error e => rw [h1] at h; cases h
      | ok p =>
          obtain ⟨x, ra⟩ := p
          rw [h1] at h
          dsimp only at h
          cases h2 : draw s n ra with
          | error e => rw [h2] at h; cases h
          | ok q =>
              obtain ⟨ys, rb⟩ := q
              rw [h2] at h
              dsimp only at h
              cases h
              intro z hz
              rcases List.mem_cons.1 hz with hz | hz
              · rw [hz]; exact drawOne_inBounds s r ra x h1
              · exact ih _ _ _ h2 z hz

/-- A successful joint draw covers exactly the registry names, in order. -/
theorem drawAll_keys (reg : List (String × PSpec)) (n : Nat) (r r1 : RNG)
    (vals : List (String × List ℚ)) (h : drawAll reg n r = .ok (vals, r1)) :
    vals.map Prod.fst = reg.map Prod.fst := by
  induction reg generalizing r r1 vals with
  | nil => rw [drawAll] at h; cases h; rfl
  | cons p rest ih =>
      obtain ⟨nm, s⟩ := p
      rw [drawAll] at h
      cases h1 : draw s n r with
      | error e => rw [h1] at h; cases h
      | ok q =>
          obtain ⟨xs, ra⟩ := q
          rw [h1] at h
          dsimp only at h
          cases h2 : drawAll rest n ra with
          | error e => rw [h2] at h; cases h
          | ok w =>
              obtain ⟨tail, rb⟩ := w
              rw [h2] at h
              dsimp only at h
              cases h
              simp [ih _ _ _ h2]

/-- Every vector of a successful joint draw has the joint trial count as
its length. -/
theorem drawAll_lengths (reg : List (String × PSpec)) (n : Nat) (r r1 : RNG)
    (vals : List (String × List ℚ)) (h : drawAll reg n r = .ok (vals, r1)) :
    ∀ p ∈ vals, (Prod.snd p).length = n := by
  induction reg generalizing r r1 vals with
  | nil => rw [drawAll] at h; cases h; simp
  | cons p rest ih =>
      obtain ⟨nm, s⟩ := p
      rw [drawAll] at h
      cases h1 : draw s n r with
      | error e => rw [h1] at h; cases h
      | ok q =>
          obtain ⟨xs, ra⟩ := q
          rw [h1] at h
          dsimp only at h
          cases h2 : drawAll rest n ra with
          | error e => rw [h2] at h; cases h
          | ok w =>
              obtain ⟨tail, rb⟩ := w
              rw [h2] at h
              dsimp only at h
              cases h
              intro q hq
              rcases List.mem_cons.1 hq with hq | hq
              · rw [hq]; exact draw_length s n r ra xs h1
              · exact ih _ _ _ h2 q hq

/-- Each vector of a successful joint draw was drawn from the spec the
registry holds under the same name, hence respects its bounds. -/
theorem drawAll_spec_of_lookup (reg : List (String × PSpec)) (n : Nat) (r r1 : RNG)
    (vals : List (String × List ℚ)) (h : drawAll reg n r = .ok (vals, r1))
    (nm : String) (xs : List ℚ) (hx : alookup vals nm = some xs) :
    ∃ s, alookup reg nm = some s ∧ ∀ x ∈ xs, inBounds s x = true := by
  induction reg generalizing r r1 vals with
  | nil =>
      rw [drawAll] at h
      cases h
      simp [alookup] at hx
  | cons p rest ih =>
      obtain ⟨k, s⟩ := p
      rw [drawAll] at h
      cases h1 : draw s n r with
      | error e => rw [h1] at h; cases h
      | ok q =>
          obtain ⟨ys, ra⟩ := q
          rw [h1] at h
          dsimp only at h
          cases h2 : drawAll rest n ra with
          | error e => rw [h2] at h; cases h
          | ok w =>
              obtain ⟨tail, rb⟩ := w
              rw [h2] at h
              dsimp only at h
              cases h
              by_cases hk : k = nm
              · subst hk
                simp [alookup] at hx
                refine ⟨s, by simp [alookup], ?_⟩
                rw [← hx]
                exact draw_mem_inBounds s n r ra ys h1
              · simp [alookup, hk] at hx
                obtain ⟨s2, hs2, hb⟩ := ih _ _ _ h2 hx
                exact ⟨s2, by simp [alookup, hk, hs2], hb⟩

/-- The raw record names an unknown distribution kind. -/
def unknownKindRaw (r : RawSpec) : Bool :=
  !(decide (r.uncertaintyType ∈ ([1, 2, 3, 4, 5, 6] : List Nat)))

/-- The raw record misses a field its kind requires. -/
def missingFieldRaw (r : RawSpec) : Bool :=
  (decide (r.uncertaintyType = 1) && r.loc.isNone) ||
  ((decide (r.uncertaintyType = 2) || decide (r.uncertaintyType = 3)) &&
    (r.loc.isNone || r.scale.isNone)) ||
  (decide (r.uncertaintyType = 4) && (r.minimum.isNone || r.maximum.isNone)) ||
  (decide (r.uncertaintyType = 5) && (r.minimum.isNone || r.loc.isNone || r.maximum.isNone)) ||
  (decide (r.uncertaintyType = 6) && r.sample.isNone)

/-- The raw record declares a minimum above its maximum. -/
def badBoundsRaw (r : RawSpec) : Bool :=
  match r.minimum, r.maximum with
  | some a, some b => decide (b < a)
  | _, _ => false

/-- The raw record places the location outside the declared bounds, for a
kind that carries both a location and bounds. -/
def locOutRaw (r : RawSpec) : Bool :=
  (decide (r.uncertaintyType = 2) || decide (r.uncertaintyType = 3) ||
   decide (r.uncertaintyType = 5)) &&
  (match r.loc with
   | some l => !locInB r.minimum r.maximum l
   | none => false)

/-- The raw record declares an empty empirical sample. -/
def emptySampleRaw (r : RawSpec) : Bool :=
  decide (r.uncertaintyType = 6) && decide (r.sample = some [])

/-- A raw record is malformed in one of the ways the error taxonomy of
section 7 enumerates (the duplicate-name case lives at the declaration
level, not in the record). -/
def badRaw (r : RawSpec) : Bool :=
  unknownKindRaw r || missingFieldRaw r || badBoundsRaw r || locOutRaw r || emptySampleRaw r

/-- A raw record that validates is not malformed. -/
theorem checkSpec_ok_not_bad (r : RawSpec) (s : PSpec) (h : checkSpec r = .ok s) :
    badRaw r = false := by
  obtain ⟨t, lo, sc, mi, ma, sa⟩ := r
  rw [checkSpec] at h
  by_cases hb : boundsPairOk mi ma = false
  · simp [hb] at h
  · rw [if_neg hb] at h
    have hb2 : badBoundsRaw ⟨t, lo, sc, mi, ma, sa⟩ = false := by
      simp only [boundsPairOk] at hb
      simp only [badBoundsRaw]
      cases mi with
      | none => rfl
      | some a =>
          cases ma with
          | none => rfl
          | some b =>
              simp at hb
              simp [not_lt.2 hb]
    by_cases h1 : t = 1
    · subst h1
      cases lo with
      | none => simp at h
      | some l =>
          simp [badRaw, unknownKindRaw, missingFieldRaw, locOutRaw, emptySampleRaw, hb2]
    · rw [if_neg h1] at h
      by_cases h2 : t = 2
      · subst h2
        match lo, sc with
        | none, none => simp at h
        | none, some c => simp at h
        | some l, none => simp at h
        | some l, some c =>
            by_cases hl : locInB mi ma l = true
            · simp [badRaw, unknownKindRaw, missingFieldRaw, locOutRaw, emptySampleRaw, hb2, hl]
            · simp [hl] at h
      · rw [if_neg h2] at h
        by_cases h3 : t = 3
        · subst h3
          match lo, sc with
          | none, none => simp at h
          | none, some c => simp at h
          | some l, none => simp at h
          | some l, some c =>
              by_cases hl : locInB mi ma l = true
              · simp [badRaw, unknownKindRaw, missingFieldRaw, locOutRaw, emptySampleRaw, hb2, hl]
              · simp [hl] at h
        · rw [if_neg h3] at h
          by_cases h4 : t = 4
          · subst h4
            match mi, ma with
            | none, none => simp at h
            | none, some b => simp at h
            | some a, none => simp at h
            | some a, some b =>
                simp [badRaw, unknownKindRaw, missingFieldRaw, locOutRaw, emptySampleRaw, hb2]
          · rw [if_neg h4] at h
            by_cases h5 : t = 5
            · subst h5
              match mi, lo, ma with
              | none, _, _ => simp at h
              | some a, none, _ => simp at h
              | some a, some l, none => simp at h
              | some a, some l, some b =>
                  by_cases hl : locInB (some a) (some b) l = true
                  · simp [badRaw, unknownKindRaw, missingFieldRaw, locOutRaw, emptySampleRaw,
                      hb2, hl]
                  · simp [hl] at h
            · rw [if_neg h5] at h
              by_cases h6 : t = 6
              · subst h6
                match sa with
                | none => simp at h
                | some [] => simp at h
                | some (x :: xs) =>
                    simp [badRaw, unknownKindRaw, missingFieldRaw, locOutRaw, emptySampleRaw, hb2]
              · simp [h6] at h

/-- A registry builds only when every record validates. -/
theorem buildRegistry_ok_all (d : List (String × RawSpec)) (reg : List (String × PSpec))
    (h : buildRegistry d = .ok reg) : ∀ p ∈ d, ∃ s, checkSpec (Prod.snd p) = .ok s := by
  induction d generalizing reg with
  | nil => simp
  | cons p rest ih =>
      obtain ⟨nm, r⟩ := p
      rw [buildRegistry] at h
      cases h1 : checkSpec r with
      | error e => rw [h1] at h; cases h
      | ok s =>
          rw [h1] at h
          dsimp only at h
          cases h2 : buildRegistry rest with
          | error e => rw [h2] at h; cases h
          | ok tail =>
              rw [h2] at h
              dsimp only at h
              cases h
              intro q hq
              rcases List.mem_cons.1 hq with hq | hq
              · rw [hq]; exact ⟨s, h1⟩
              · exact ih tail h2 q hq

/-- A declaration that produces an engine had distinct names and only
valid records, and the engine starts uninitialized with the registry keys
matching the declaration keys. -/
theorem declare_ok_inv (d : List (String × RawSpec)) (e : Engine)
    (h : declare d = .ok e) :
    (d.map Prod.fst).Nodup ∧ (∀ p ∈ d, ∃ s, checkSpec (Prod.snd p) = .ok s) ∧
      e.store = Store.uninit := by
  rw [declare] at h
  by_cases hn : (d.map Prod.fst).all (fun s => !s.isEmpty) = false
  · simp [hn] at h
  · rw [if_neg hn] at h
    by_cases hd : (d.map Prod.fst).Nodup
    · rw [if_pos hd] at h
      cases h2 : buildRegistry d with
      | error e1 => rw [h2] at h; cases h
      | ok reg =>
          rw [h2] at h
          dsimp only at h
          cases h
          exact ⟨hd, buildRegistry_ok_all d reg h2, rfl⟩
    · simp [hd] at h

/-- The store is in a coherent mode: absent, or static scalars for
exactly the registry names, or stochastic vectors for exactly the
registry names all sharing one trial count. -/
def StoreOk (e : Engine) : Prop :=
  e.store = Store.uninit ∨
  (∃ vals, e.store = Store.statics vals ∧ vals.map Prod.fst = e.registry.map Prod.fst) ∨
  (∃ n vals, e.store = Store.stoch n vals ∧ vals.map Prod.fst = e.registry.map Prod.fst ∧
     ∀ p ∈ vals, (Prod.snd p).length = n)

/-- The engine states observable through the public lifecycle: declare,
then any sequence of stochastic and static transitions. -/
inductive Reachable : Engine → Prop where
  | declared (d : List (String × RawSpec)) (e : Engine) :
      declare d = Except.ok e → Reachable e
  | stochStep (e e2 : Engine) (n : Nat) (r : RNG) :
      Reachable e → stochastic e n r = Except.ok e2 → Reachable e2
  | staticStep (e : Engine) : Reachable e → Reachable (static e)

/-- The keys of the static store are the registry keys. -/
theorem static_keys (e : Engine) :
    (e.registry.map (fun p => (p.1, representative p.2))).map Prod.fst =
      e.registry.map Prod.fst := by
  simp [List.map_map, Function.comp]

/-- A successful stochastic transition ends in a uniform stochastic store
over the same registry. -/
theorem stochastic_ok_inv (e e2 : Engine) (n : Nat) (r : RNG)
    (h : stochastic e n r = .ok e2) :
    ∃ vals r1, drawAll e.registry n r = .ok (vals, r1) ∧
      e2 = ⟨e.registry, Store.stoch n vals⟩ := by
  rw [stochastic] at h
  cases hd : drawAll e.registry n r with
  | error e1 => rw [hd] at h; cases h
  | ok p =>
      obtain ⟨vals, r1⟩ := p
      rw [hd] at h
      dsimp only at h
      cases h
      exact ⟨vals, r1, rfl, rfl⟩

/-- Every reachable engine has a coherent store. -/
theorem reachable_storeOk (e : Engine) (h : Reachable e) : StoreOk e := by
  induction h with
  | declared d e hd => exact Or.inl (declare_ok_inv d e hd).2.2
  | stochStep e e2 n r _ hs _ =>
      obtain ⟨vals, r1, hd, he⟩ := stochastic_ok_inv e e2 n r hs
      subst he
      exact Or.inr (Or.inr ⟨n, vals, rfl, drawAll_keys _ _ _ _ _ hd,
        drawAll_lengths _ _ _ _ _ hd⟩)
  | staticStep e _ _ =>
      exact Or.inr (Or.inl ⟨_, rfl, static_keys e⟩)

/-- Claim C1: after stochastic(N) every declared parameter reads back as
a vector of exactly N values, and after static() every declared parameter
reads back as a single scalar; the shape is uniform across parameters. -/
theorem stochastic_static_shape (e e2 : Engine) (n : Nat) (r : RNG)
    (h : stochastic e n r = .ok e2) :
    (∀ nm ∈ e.registry.map Prod.fst,
       ∃ xs, get e2 nm = .ok (.vector xs) ∧ xs.length = n) ∧
    (∀ nm ∈ e.registry.map Prod.fst,
       ∃ v, get (static e) nm = .ok (.scalar v)) := by
  obtain ⟨vals, r1, hd, he⟩ := stochastic_ok_inv e e2 n r h
  subst he
  constructor
  · intro nm hnm
    have hkeys := drawAll_keys _ _ _ _ _ hd
    obtain ⟨xs, hxs⟩ := alookup_of_mem_keys vals nm (by rw [hkeys]; exact hnm)
    refine ⟨xs, ?_, ?_⟩
    · simp [get, hxs]
    · exact drawAll_lengths _ _ _ _ _ hd (nm, xs) (alookup_mem _ _ _ hxs)
  · intro nm hnm
    obtain ⟨s, hs⟩ := alookup_of_mem_keys e.registry nm hnm
    refine ⟨representative s, ?_⟩
    simp [get, static, alookup_map, hs]

/-- An engine holding one joint stochastic draw of the notebook
parameters, used as a concrete instance. -/
def nbStoch4 : Engine :=
  match stochastic nbEngine 4 ⟨11⟩ with
  | .ok e => e
  | .error _ => nbEngine

/-- Witness for C1 at the notebook declaration with four trials. -/
theorem stochastic_static_shape_witness :
    stochastic nbEngine 4 ⟨11⟩ = Except.ok nbStoch4 ∧
    (∃ xs, get nbStoch4 "driver" = Except.ok (Value.vector xs) ∧ xs.length = 4) ∧
    (∃ v, get (static nbEngine) "driver" = Except.ok (Value.scalar v)) := by
  have h : stochastic nbEngine 4 ⟨11⟩ = Except.ok nbStoch4 := by with_unfolding_all rfl
  have hm : "driver" ∈ nbEngine.registry.map Prod.fst := by
    with_unfolding_all decide
  exact ⟨h, (stochastic_static_shape nbEngine nbStoch4 4 ⟨11⟩ h).1 "driver" hm,
    (stochastic_static_shape nbEngine nbStoch4 4 ⟨11⟩ h).2 "driver" hm⟩

/-- Claim C2: static() stores exactly 0.01 for the notebook normal and
exactly 1 for the notebook triangular, and the representative is clipped
to the nearest bound only when it falls outside the declared interval. -/
theorem static_representative_values :
    get (static nbEngine) "fuel_consumption" = Except.ok (Value.scalar (1/100)) ∧
    get (static nbEngine) "driver" = Except.ok (Value.scalar 1) ∧
    (∀ a b x : ℚ, a ≤ x → x ≤ b → clip (some a) (some b) x = x) ∧
    (∀ a b x : ℚ, x < a → a ≤ b → clip (some a) (some b) x = a) ∧
    (∀ a b x : ℚ, b < x → a ≤ b → clip (some a) (some b) x = b) := by
  refine ⟨by with_unfolding_all rfl, by with_unfolding_all rfl, ?_, ?_, ?_⟩
  · intro a b x h1 h2
    simp [clip, max_eq_right h1, min_eq_right h2]
  · intro a b x h1 h2
    simp [clip, max_eq_left (le_of_lt h1), min_eq_right h2]
  · intro a b x h1 h2
    have hm : max a x = x := max_eq_right (le_trans h2 (le_of_lt h1))
    simp [clip, hm, min_eq_left (le_of_lt h1)]

/-- Witness for C2, exercising the clipping policy on concrete values. -/
theorem static_representative_values_witness :
    clip (some (0:ℚ)) (some 2) 1 = 1 ∧ clip (some (0:ℚ)) (some 2) (-1) = 0 ∧
    clip (some (0:ℚ)) (some 2) 3 = 2 :=
  ⟨static_representative_values.2.2.1 0 2 1 (by norm_num) (by norm_num),
   static_representative_values.2.2.2.1 0 2 (-1) (by norm_num) (by norm_num),
   static_representative_values.2.2.2.2 0 2 3 (by norm_num) (by norm_num)⟩

/-- Claim C7: reading any name on an uninitialized engine fails with
NotReadyError, and declare only produces uninitialized engines; once the
store is initialized, reading a name outside the registry fails with
UnknownParameterError.  The lookup is a pure function and cannot change
the engine. -/
theorem lookup_failure_modes (e : Engine) (nm : String) (hw : StoreOk e) :
    (e.store = Store.uninit → get e nm = Except.error AccessError.notReady) ∧
    (e.store ≠ Store.uninit → nm ∉ e.registry.map Prod.fst →
       get e nm = Except.error AccessError.unknownParameter) ∧
    (∀ d, declare d = Except.ok e → e.store = Store.uninit) := by
  refine ⟨?_, ?_, ?_⟩
  · intro h
    simp [get, h]
  · intro hne hnm
    rcases hw with h | ⟨vals, hv, hk⟩ | ⟨n, vals, hv, hk, _⟩
    · exact absurd h hne
    · have hl : alookup vals nm = none :=
        alookup_eq_none_of_not_mem _ _ (by rw [hk]; exact hnm)
      simp [get, hv, hl]
    · have hl : alookup vals nm = none :=
        alookup_eq_none_of_not_mem _ _ (by rw [hk]; exact hnm)
      simp [get, hv, hl]
  · intro d hd
    exact (declare_ok_inv d e hd).2.2

/-- Witness for C7: an unknown name after static(), and a lookup on the
freshly declared notebook engine. -/
theorem lookup_failure_modes_witness :
    get (static nbEngine) "missing" = Except.error AccessError.unknownParameter ∧
    get nbEngine "driver" = Except.error AccessError.notReady := by
  constructor
  · exact (lookup_failure_modes (static nbEngine) "missing"
      (Or.inr (Or.inl ⟨_, rfl, static_keys nbEngine⟩))).2.1
      (by with_unfolding_all decide) (by with_unfolding_all decide)
  · exact (lookup_failure_modes nbEngine "driver" (Or.inl rfl)).1 rfl

/-- Claim C8: the store is replaced atomically and wholesale: every
engine state observable through the lifecycle has a shape-uniform store
(never a mix of stale and fresh vectors), and the result of a transition
depends only on the registry, never on the store being replaced. -/
theorem atomic_store_replacement (e : Engine) (h : Reachable e) :
    StoreOk e ∧
    (∀ (s : Store) (n : Nat) (r : RNG), stochastic ⟨e.registry, s⟩ n r = stochastic e n r) ∧
    (∀ s : Store, static ⟨e.registry, s⟩ = static e) := by
  refine ⟨reachable_storeOk e h, ?_, ?_⟩
  · intro s n r
    rfl
  · intro s
    rfl

/-- Witness for C8 at the freshly declared notebook engine. -/
theorem atomic_store_replacement_witness :
    Reachable nbEngine ∧ StoreOk nbEngine := by
  have h : Reachable nbEngine :=
    Reachable.declared notebookDecl nbEngine (by with_unfolding_all rfl)
  exact ⟨h, (atomic_store_replacement nbEngine h).1⟩

/-- Claim C4: every value of a successful stochastic draw lies within the
declared bounds of its distribution whenever such bounds exist. -/
theorem draws_within_bounds (s : PSpec) (n : Nat) (r r1 : RNG) (xs : List ℚ)
    (h : draw s n r = .ok (xs, r1)) :
    ∀ x ∈ xs, (∀ a, (specBounds s).1 = some a → a ≤ x) ∧
      (∀ b, (specBounds s).2 = some b → x ≤ b) := by
  intro x hx
  have hb := draw_mem_inBounds s n r r1 xs h x hx
  simp only [inBounds, Bool.and_eq_true] at hb
  obtain ⟨hb1, hb2⟩ := hb
  constructor
  · intro a ha
    rw [ha] at hb1
    simpa using hb1
  · intro b hbnd
    rw [hbnd] at hb2
    simpa using hb2

/-- A concrete successful triangular draw for the C4 witness. -/
def c4Res : List ℚ × RNG :=
  match draw driverPSpec 3 ⟨5⟩ with
  | .ok p => p
  | .error _ => ([], ⟨0⟩)

/-- The head of a list of positive length is a member. -/
theorem headD_mem_of_length_pos {α : Type} (l : List α) (d : α) (h : 0 < l.length) :
    l.headD d ∈ l := by
  cases l with
  | nil => simp at h
  | cons x xs => simp

/-- Witness for C4 on the notebook triangular parameter. -/
theorem draws_within_bounds_witness :
    draw driverPSpec 3 ⟨5⟩ = Except.ok (c4Res.1, c4Res.2) ∧
    4/5 ≤ c4Res.1.headD 0 ∧ c4Res.1.headD 0 ≤ 6/5 := by
  have h : draw driverPSpec 3 ⟨5⟩ = Except.ok (c4Res.1, c4Res.2) := by
    with_unfolding_all rfl
  have hlen : c4Res.1.length = 3 := draw_length driverPSpec 3 ⟨5⟩ c4Res.2 c4Res.1 h
  have hm : c4Res.1.headD 0 ∈ c4Res.1 :=
    headD_mem_of_length_pos _ _ (by rw [hlen]; norm_num)
  have hb := draws_within_bounds driverPSpec 3 ⟨5⟩ c4Res.2 c4Res.1 h (c4Res.1.headD 0) hm
  exact ⟨h, hb.1 (4/5) rfl, hb.2 (6/5) rfl⟩

/-- Claim C9: the notebook normal with a minimum but no maximum is
accepted at declaration time, and its draws are truncated from below
only: the bound test demands exactly 0.005 or more, with no upper
restriction, and every successful draw obeys it. -/
theorem lower_bounded_normal_accepted :
    declare notebookDecl = Except.ok nbEngine ∧
    checkSpec fuelRaw = Except.ok fuelPSpec ∧
    (∀ x : ℚ, inBounds fuelPSpec x = true ↔ 1/200 ≤ x) ∧
    (∀ (n : Nat) (r r1 : RNG) (xs : List ℚ), draw fuelPSpec n r = Except.ok (xs, r1) →
       ∀ x ∈ xs, 1/200 ≤ x) := by
  refine ⟨by with_unfolding_all rfl, by with_unfolding_all rfl, ?_, ?_⟩
  · intro x
    simp [inBounds, specBounds, fuelPSpec]
  · intro n r r1 xs h x hx
    have hb := draw_mem_inBounds fuelPSpec n r r1 xs h x hx
    simpa [inBounds, specBounds, fuelPSpec] using hb

/-- A concrete successful lower-truncated normal draw for the C9 witness. -/
def c9Res : List ℚ × RNG :=
  match draw fuelPSpec 3 ⟨9⟩ with
  | .ok p => p
  | .error _ => ([], ⟨0⟩)

/-- Witness for C9 on the notebook fuel-consumption parameter. -/
theorem lower_bounded_normal_accepted_witness :
    draw fuelPSpec 3 ⟨9⟩ = Except.ok (c9Res.1, c9Res.2) ∧ 1/200 ≤ c9Res.1.headD 0 := by
  have h : draw fuelPSpec 3 ⟨9⟩ = Except.ok (c9Res.1, c9Res.2) := by
    with_unfolding_all rfl
  have hlen : c9Res.1.length = 3 := draw_length fuelPSpec 3 ⟨9⟩ c9Res.2 c9Res.1 h
  have hm : c9Res.1.headD 0 ∈ c9Res.1 :=
    headD_mem_of_length_pos _ _ (by rw [hlen]; norm_num)
  exact ⟨h, lower_bounded_normal_accepted.2.2.2 3 ⟨9⟩ c9Res.2 c9Res.1 h
    (c9Res.1.headD 0) hm⟩

/-- Claim C5: a declaration containing any malformed record, or a
duplicate name, fails with a SpecificationError and produces no engine. -/
theorem malformed_declaration_rejected (d : List (String × RawSpec))
    (h : (∃ p ∈ d, badRaw (Prod.snd p) = true) ∨ ¬ (d.map Prod.fst).Nodup) :
    ∃ err, declare d = Except.error err := by
  cases hd : declare d with
  | error err => exact ⟨err, rfl⟩
  | ok e =>
      exfalso
      obtain ⟨hnodup, hall, _⟩ := declare_ok_inv d e hd
      rcases h with ⟨p, hp, hbad⟩ | h
      · obtain ⟨s, hs⟩ := hall p hp
        rw [checkSpec_ok_not_bad (Prod.snd p) s hs] at hbad
        simp at hbad
      · exact h hnodup

/-- A declaration whose single record inverts its bounds. -/
def badDecl : List (String × RawSpec) :=
  [("broken", ⟨5, some 1, none, some (6/5), some (4/5), none⟩)]

/-- Witness for C5 on a triangular record with minimum above maximum. -/
theorem malformed_declaration_rejected_witness :
    (∃ p ∈ badDecl, badRaw (Prod.snd p) = true) ∧
    ∃ err, declare badDecl = Except.error err := by
  have h : ∃ p ∈ badDecl, badRaw (Prod.snd p) = true := by
    refine ⟨("broken", ⟨5, some 1, none, some (6/5), some (4/5), none⟩), ?_, ?_⟩
    · with_unfolding_all decide
    · with_unfolding_all decide
  exact ⟨h, malformed_declaration_rejected badDecl (Or.inl h)⟩

/-- Claim C6: the joint sample is a pure function of the seed and the
registry alone (the store being replaced is irrelevant), and the
parameters consume sequential draws from the one shared stream in
registry order: sampling a split registry first exhausts the stream for
the front parameters and hands the advanced stream to the rest. -/
theorem joint_sampling_deterministic :
    (∀ (e1 e2 : Engine) (n : Nat) (r : RNG), e1.registry = e2.registry →
       stochastic e1 n r = stochastic e2 n r) ∧
    (∀ (pre post : List (String × PSpec)) (n : Nat) (r : RNG),
       drawAll (pre ++ post) n r =
         match drawAll pre n r with
         | .error e => .error e
         | .ok (v1, r1) =>
             match drawAll post n r1 with
             | .error e => .error e
             | .ok (v2, r2) => .ok (v1 ++ v2, r2)) := by
  constructor
  · intro e1 e2 n r hreg
    rw [stochastic, stochastic, hreg]
  · intro pre post n r
    induction pre generalizing r with
    | nil =>
        simp only [List.nil_append, drawAll]
        cases h2 : drawAll post n r with
        | error e => rfl
        | ok q => rfl
    | cons p rest ih =>
        obtain ⟨nm, s⟩ := p
        simp only [List.cons_append, drawAll]
        cases h1 : draw s n r with
        | error e => rfl
        | ok q =>
            obtain ⟨xs, ra⟩ := q
            dsimp only
            simp only [List.append_eq]
            rw [ih ra]
            cases h2 : drawAll rest n ra with
            | error e => rfl
            | ok w =>
                obtain ⟨v1, rb⟩ := w
                dsimp only
                cases h3 : drawAll post n rb with
                | error e => rfl
                | ok u => rfl

/-- Witness for C6: the same seed gives the same joint sample on the
notebook engine whatever its current store holds. -/
theorem joint_sampling_deterministic_witness :
    (static nbEngine).registry = nbEngine.registry ∧
    stochastic (static nbEngine) 2 ⟨3⟩ = stochastic nbEngine 2 ⟨3⟩ :=
  ⟨rfl, joint_sampling_deterministic.1 (static nbEngine) nbEngine 2 ⟨3⟩ rfl⟩

/-- Elementwise value of zipped multiplication at an in-range index. -/
theorem zipWith_mul_getD (xs ys : List ℚ) (i : Nat) (hx : i < xs.length)
    (hy : i < ys.length) :
    (List.zipWith (fun x y => x * y) xs ys).getD i 0 = xs.getD i 0 * ys.getD i 0 := by
  induction xs generalizing ys i with
  | nil => simp at hx
  | cons x xs ih =>
      cases ys with
      | nil => simp at hy
      | cons y ys =>
          cases i with
          | zero => simp
          | succ i =>
              simp only [List.zipWith_cons_cons, List.getD_cons_succ]
              exact ih ys i (by simpa using hx) (by simpa using hy)

/-- Elementwise value of a mapped list at an in-range index. -/
theorem map_getD_of_lt (f : ℚ → ℚ) (l : List ℚ) (i : Nat) (h : i < l.length) :
    (l.map f).getD i 0 = f (l.getD i 0) := by
  induction l generalizing i with
  | nil => simp at h
  | cons x xs ih =>
      cases i with
      | zero => simp
      | succ i =>
          simp only [List.map_cons, List.getD_cons_succ]
          exact ih i (by simpa using h)

/-- An in-range indexed value is a member of the list. -/
theorem getD_mem_of_lt (l : List ℚ) (i : Nat) (h : i < l.length) : l.getD i 0 ∈ l := by
  induction l generalizing i with
  | nil => simp at h
  | cons x xs ih =>
      cases i with
      | zero => simp
      | succ i =>
          simp only [List.getD_cons_succ]
          exact List.mem_cons_of_mem _ (ih i (by simpa using h))

/-- The raw record of a constant parameter of value 2. -/
def aRaw : RawSpec := ⟨1, some 2, none, none, none, none⟩

/-- The raw record of a constant parameter of value 3. -/
def bRaw : RawSpec := ⟨1, some 3, none, none, none, none⟩

/-- A two-parameter declaration with constants 2 and 3. -/
def abDecl : List (String × RawSpec) := [("a", aRaw), ("b", bRaw)]

/-- The engine declared from abDecl. -/
def abEngine : Engine := ⟨[("a", .constant 2), ("b", .constant 3)], .uninit⟩

/-- The downstream model of the mode-independence property: the product
of the two named parameters, read through the facade. -/
def abModel (e : Engine) : Except AccessError Value :=
  match get e "a" with
  | .error e1 => .error e1
  | .ok a =>
      match get e "b" with
      | .error e1 => .error e1
      | .ok b => .ok (vmul a b)

/-- Claim C3: the unmodified product model reads 6 in static mode on the
constants 2 and 3, and in stochastic mode it reads a length-n vector
whose entry at every index is the product of the two parameter vectors at
that index. -/
theorem model_mode_independent (n : Nat) (r : RNG) (e2 : Engine)
    (h : stochastic abEngine n r = Except.ok e2) :
    declare abDecl = Except.ok abEngine ∧
    abModel (static abEngine) = Except.ok (Value.scalar 6) ∧
    ∃ xs ys, get e2 "a" = Except.ok (Value.vector xs) ∧
      get e2 "b" = Except.ok (Value.vector ys) ∧ xs.length = n ∧ ys.length = n ∧
      abModel e2 = Except.ok (Value.vector (List.zipWith (fun x y => x * y) xs ys)) ∧
      ∀ i, i < n →
        (List.zipWith (fun x y => x * y) xs ys).getD i 0 = xs.getD i 0 * ys.getD i 0 := by
  obtain ⟨vals, r1, hd, he⟩ := stochastic_ok_inv abEngine e2 n r h
  subst he
  have hkeys := drawAll_keys _ _ _ _ _ hd
  obtain ⟨xs, hxs⟩ := alookup_of_mem_keys vals "a" (by rw [hkeys]; decide)
  obtain ⟨ys, hys⟩ := alookup_of_mem_keys vals "b" (by rw [hkeys]; decide)
  have hga : get ⟨abEngine.registry, Store.stoch n vals⟩ "a" = Except.ok (Value.vector xs) := by
    simp [get, hxs]
  have hgb : get ⟨abEngine.registry, Store.stoch n vals⟩ "b" = Except.ok (Value.vector ys) := by
    simp [get, hys]
  have hlx : xs.length = n := drawAll_lengths _ _ _ _ _ hd ("a", xs) (alookup_mem _ _ _ hxs)
  have hly : ys.length = n := drawAll_lengths _ _ _ _ _ hd ("b", ys) (alookup_mem _ _ _ hys)
  refine ⟨by with_unfolding_all rfl, by with_unfolding_all rfl,
    xs, ys, hga, hgb, hlx, hly, ?_, ?_⟩
  · simp [abModel, hga, hgb, vmul]
  · intro i hi
    exact zipWith_mul_getD xs ys i (by rw [hlx]; exact hi) (by rw [hly]; exact hi)

/-- An engine holding one joint 1000-trial draw of the constants
declaration, used as a concrete instance. -/
def abStoch1000 : Engine :=
  match stochastic abEngine 1000 ⟨2026⟩ with
  | .ok e => e
  | .error _ => abEngine

set_option maxRecDepth 8000 in
/-- Witness for C3 with 1000 trials. -/
theorem model_mode_independent_witness :
    stochastic abEngine 1000 ⟨2026⟩ = Except.ok abStoch1000 ∧
    abModel (static abEngine) = Except.ok (Value.scalar 6) := by
  have h : stochastic abEngine 1000 ⟨2026⟩ = Except.ok abStoch1000 := by
    with_unfolding_all rfl
  exact ⟨h, (model_mode_independent 1000 ⟨2026⟩ abStoch1000 h).2.1⟩

/-- Claim C10: the scooter model emits a second row exactly three times
its first row, the first row is the elementwise product of the
fuel-consumption and driver values, and every emitted value is strictly
positive, in static as well as stochastic mode. -/
theorem scooter_rows (e2 : Engine) (n : Nat) (r : RNG)
    (h : stochastic nbEngine n r = Except.ok e2) :
    (∃ v1 v2, scooterModel (static nbEngine) =
        Except.ok (Value.scalar v1, Value.scalar v2) ∧
        v2 = 3 * v1 ∧ v1 = representative fuelPSpec * representative driverPSpec ∧
        0 < v1 ∧ 0 < v2) ∧
    ∃ fs ds, get e2 "fuel_consumption" = Except.ok (Value.vector fs) ∧
      get e2 "driver" = Except.ok (Value.vector ds) ∧
      fs.length = n ∧ ds.length = n ∧
      scooterModel e2 = Except.ok
        (Value.vector (List.zipWith (fun x y => x * y) fs ds),
         Value.vector ((List.zipWith (fun x y => x * y) fs ds).map (fun x => 3 * x))) ∧
      ∀ i, i < n →
        ((List.zipWith (fun x y => x * y) fs ds).map (fun x => 3 * x)).getD i 0 =
          3 * (List.zipWith (fun x y => x * y) fs ds).getD i 0 ∧
        (List.zipWith (fun x y => x * y) fs ds).getD i 0 = fs.getD i 0 * ds.getD i 0 ∧
        0 < (List.zipWith (fun x y => x * y) fs ds).getD i 0 := by
  obtain ⟨vals, r1, hd, he⟩ := stochastic_ok_inv nbEngine e2 n r h
  subst he
  have hkeys := drawAll_keys _ _ _ _ _ hd
  obtain ⟨fs, hfs⟩ := alookup_of_mem_keys vals "fuel_consumption" (by rw [hkeys]; decide)
  obtain ⟨ds, hds⟩ := alookup_of_mem_keys vals "driver" (by rw [hkeys]; decide)
  have hgf : get ⟨nbEngine.registry, Store.stoch n vals⟩ "fuel_consumption" =
      Except.ok (Value.vector fs) := by
    simp [get, hfs]
  have hgd : get ⟨nbEngine.registry, Store.stoch n vals⟩ "driver" =
      Except.ok (Value.vector ds) := by
    simp [get, hds]
  have hlf : fs.length = n :=
    drawAll_lengths _ _ _ _ _ hd ("fuel_consumption", fs) (alookup_mem _ _ _ hfs)
  have hld : ds.length = n :=
    drawAll_lengths _ _ _ _ _ hd ("driver", ds) (alookup_mem _ _ _ hds)
  obtain ⟨s1, hs1, hbf⟩ := drawAll_spec_of_lookup _ _ _ _ _ hd _ _ hfs
  obtain ⟨s2, hs2, hbd⟩ := drawAll_spec_of_lookup _ _ _ _ _ hd _ _ hds
  have hr1 : alookup nbEngine.registry "fuel_consumption" = some fuelPSpec := by
    with_unfolding_all rfl
  have hr2 : alookup nbEngine.registry "driver" = some driverPSpec := by
    with_unfolding_all rfl
  rw [hr1] at hs1
  rw [hr2] at hs2
  have hsf : s1 = fuelPSpec := (Option.some.inj hs1).symm
  have hsd : s2 = driverPSpec := (Option.some.inj hs2).symm
  subst hsf
  subst hsd
  constructor
  · refine ⟨1/100, 3/100, by with_unfolding_all rfl, by norm_num,
      by with_unfolding_all rfl, by norm_num, by norm_num⟩
  · refine ⟨fs, ds, hgf, hgd, hlf, hld, ?_, ?_⟩
    · simp [scooterModel, hgf, hgd, vmul, smul]
    · intro i hi
      have hif : i < fs.length := by rw [hlf]; exact hi
      have hid : i < ds.length := by rw [hld]; exact hi
      have hzl : i < (List.zipWith (fun x y => x * y) fs ds).length := by
        rw [List.length_zipWith, hlf, hld, min_self]
        exact hi
      have h1 : 1/200 ≤ fs.getD i 0 := by
        have := hbf (fs.getD i 0) (getD_mem_of_lt fs i hif)
        simpa [inBounds, specBounds, fuelPSpec] using this
      have h2 : 4/5 ≤ ds.getD i 0 := by
        have := hbd (ds.getD i 0) (getD_mem_of_lt ds i hid)
        simp only [inBounds, specBounds, driverPSpec, Bool.and_eq_true,
          decide_eq_true_eq] at this
        exact this.1
      refine ⟨map_getD_of_lt _ _ i hzl, zipWith_mul_getD fs ds i hif hid, ?_⟩
      rw [zipWith_mul_getD fs ds i hif hid]
      have hpf : (0:ℚ) < fs.getD i 0 := lt_of_lt_of_le (by norm_num) h1
      have hpd : (0:ℚ) < ds.getD i 0 := lt_of_lt_of_le (by norm_num) h2
      exact mul_pos hpf hpd

/-- An engine holding one joint three-trial draw of the notebook
parameters, used as a concrete instance. -/
def nbStoch3 : Engine :=
  match stochastic nbEngine 3 ⟨13⟩ with
  | .ok e => e
  | .error _ => nbEngine

/-- Witness for C10 with three trials of the notebook declaration. -/
theorem scooter_rows_witness :
    stochastic nbEngine 3 ⟨13⟩ = Except.ok nbStoch3 ∧
    ∃ v1 v2, scooterModel (static nbEngine) =
        Except.ok (Value.scalar v1, Value.scalar v2) ∧
        v2 = 3 * v1 ∧ v1 = representative fuelPSpec * representative driverPSpec ∧
        0 < v1 ∧ 0 < v2 := by
  have h : stochastic nbEngine 3 ⟨13⟩ = Except.ok nbStoch3 := by
    with_unfolding_all rfl
  exact ⟨h, (scooter_rows nbStoch3 3 ⟨13⟩ h).1⟩

end Klausen
